import Mathlib

/-!
# Stack Visualizer: the stack engine and its session controller

A shallow embedding of `src/app.js`.

* `Stack` is the `Stack` class (lines 2-76): `items` is the JavaScript array,
  oldest element at index 0, and `capacity` is the `_capacity` field.
  A method that mutates `this` and returns a result record becomes a function
  returning the new stack together with the record.
* In `Stack` the capacity and the argument of `resize` are integers (`Int`), zero and
  negative ones included. `JsStack` is the same class with an arbitrary JavaScript
  number (`JSNumber`: a finite value, an infinity or `NaN`) for the capacity and for
  the argument of `resize`; the two agree on integers.
* `App` is the global session state (`stack`, `isAnimating`); a handler returns the new
  state and the list of calls it made, in order.
* A value of `Math.random()` is a double in `[0, 1)` (`UnitDraw`); its product with an
  integer is rounded as double arithmetic rounds it (`roundToDouble`).
-/

namespace StackVisualizer

/-- The result record `{ success, message, value }` returned by the engine;
`value` is `none` when the record has no `value` field. -/
structure Result (α : Type) where
  success : Bool
  message : String
  value : Option α
deriving DecidableEq, Repr

/-- The `Stack` class: `items` (oldest first) and `_capacity`. -/
structure Stack (α : Type) where
  items : List α
  capacity : Int
deriving DecidableEq, Repr

namespace Stack

variable {α : Type}

/-- The call `new Stack(capacity)`; `none` is the omitted argument, for which the
default `capacity = 5` applies. -/
def new (capacity : Option Int) : Stack α :=
  { items := [], capacity := capacity.getD 5 }

/-- Method `push(val)` (lines 12-18). -/
def push [ToString α] (s : Stack α) (val : α) : Stack α × Result α :=
  if (s.items.length : Int) ≥ s.capacity then
    (s, { success := false, message := "Stack Overflow! Cannot push to full stack.",
          value := none })
  else
    ({ s with items := s.items ++ [val] },
     { success := true, message := "Pushed \"" ++ toString val ++ "\" to stack",
       value := none })

/-- Method `pop()` (lines 20-26): `this.items.pop()` removes and returns the last
element. -/
def pop [ToString α] (s : Stack α) : Stack α × Result α :=
  if h : s.items.length = 0 then
    (s, { success := false, message := "Stack Underflow! Cannot pop from empty stack.",
          value := none })
  else
    let val := s.items.getLast (fun hnil => h (by rw [hnil]; rfl))
    ({ s with items := s.items.dropLast },
     { success := true, message := "Popped \"" ++ toString val ++ "\" from stack",
       value := some val })

/-- Method `peek()` (lines 28-34): reads `this.items[this.items.length - 1]`. -/
def peek [ToString α] (s : Stack α) : Stack α × Result α :=
  if h : s.items.length = 0 then
    (s, { success := false, message := "Stack is empty! Nothing to peek.", value := none })
  else
    let val := s.items.get ⟨s.items.length - 1, Nat.sub_lt (Nat.pos_of_ne_zero h) Nat.one_pos⟩
    (s, { success := true, message := "Top value is \"" ++ toString val ++ "\"",
          value := some val })

/-- Method `clear()` (lines 36-39). -/
def clear (s : Stack α) : Stack α × Result α :=
  ({ s with items := [] },
   { success := true, message := "Stack cleared successfully", value := none })

/-- Method `resize(newCapacity)` (lines 41-55): `this.items.splice(newCapacity)`
removes the elements from index `newCapacity` to the end and returns them. -/
def resize (s : Stack α) (newCapacity : Int) : Stack α × Result α :=
  if newCapacity < 1 then
    (s, { success := false, message := "Capacity must be at least 1", value := none })
  else
    let oldCapacity := s.capacity
    if (s.items.length : Int) > newCapacity then
      let removed := s.items.drop newCapacity.toNat
      ({ items := s.items.take newCapacity.toNat, capacity := newCapacity },
       { success := true,
         message := "Resized from " ++ toString oldCapacity ++ " to " ++ toString newCapacity
           ++ ". Removed " ++ toString removed.length ++ " items.",
         value := none })
    else
      ({ items := s.items, capacity := newCapacity },
       { success := true,
         message := "Resized from " ++ toString oldCapacity ++ " to " ++ toString newCapacity,
         value := none })

/-- Method `size()`. -/
def size (s : Stack α) : Nat := s.items.length

/-- Method `isEmpty()`. -/
def isEmpty (s : Stack α) : Bool := decide (s.items.length = 0)

/-- Method `isFull()`. -/
def isFull (s : Stack α) : Bool := decide ((s.items.length : Int) = s.capacity)

/-- Method `getTopIndex()`: `this.items.length - 1`, which is `-1` on an empty stack. -/
def getTopIndex (s : Stack α) : Int := (s.items.length : Int) - 1

/-- Method `getItems()`: a copy of the items. -/
def getItems (s : Stack α) : List α := s.items

end Stack

/-- One call on the engine, with its argument. -/
inductive Op (α : Type) where
  | push (val : α)
  | pop
  | peek
  | clear
  | resize (newCapacity : Int)
deriving DecidableEq, Repr

/-- Performing one engine call. -/
def Op.apply {α : Type} [ToString α] (s : Stack α) : Op α → Stack α × Result α
  | .push val => s.push val
  | .pop => s.pop
  | .peek => s.peek
  | .clear => s.clear
  | .resize n => s.resize n

/-- The calls of `ops` made one after the other on `s`: the stack and the result
record after each call, in order. -/
def runTrace {α : Type} [ToString α] (s : Stack α) :
    List (Op α) → List (Stack α × Result α)
  | [] => []
  | op :: ops => Op.apply s op :: runTrace (Op.apply s op).1 ops

/-- The stack after all the calls of `ops`. -/
def runOps {α : Type} [ToString α] (s : Stack α) : List (Op α) → Stack α
  | [] => s
  | op :: ops => runOps (Op.apply s op).1 ops

/-- Whether a call is a `push`. -/
def Op.isPush {α : Type} : Op α → Bool
  | .push _ => true
  | _ => false

/-- Whether a call is a `pop`. -/
def Op.isPop {α : Type} : Op α → Bool
  | .pop => true
  | _ => false

/-- How many of the calls of `ops`, made one after the other on `s`, are pushes that
returned `success = true`. -/
def successfulPushes {α : Type} [ToString α] (s : Stack α) : List (Op α) → Nat
  | [] => 0
  | op :: ops =>
    (if op.isPush && (Op.apply s op).2.success then 1 else 0)
      + successfulPushes (Op.apply s op).1 ops

/-- How many of the calls of `ops`, made one after the other on `s`, are pops that
returned `success = true`. -/
def successfulPops {α : Type} [ToString α] (s : Stack α) : List (Op α) → Nat
  | [] => 0
  | op :: ops =>
    (if op.isPop && (Op.apply s op).2.success then 1 else 0)
      + successfulPops (Op.apply s op).1 ops

/-- The data-model invariant: `items.length ≤ capacity` and `capacity ≥ 1`. -/
def Stack.WellFormed {α : Type} (s : Stack α) : Prop :=
  (s.items.length : Int) ≤ s.capacity ∧ 1 ≤ s.capacity

/-! ## The engine on arbitrary numbers

JavaScript does not type the argument of `resize` or of the constructor: the methods
run on any number. `JsStack` is the same class with the capacity an arbitrary number;
on integer capacities it agrees with `Stack` call by call (`apply_toJs`). -/

/-- A JavaScript number: `NaN`, an infinity, or the finite value
`numerator / 2 ^ shift` (every finite double has this form, and every integer `n` is
`n / 2 ^ 0`). -/
inductive JSNumber where
  | nan
  | infinity (negative : Bool)
  | finite (numerator : Int) (shift : Nat)
deriving DecidableEq, Repr

namespace JSNumber

/-- The integer `n` as a number. -/
def ofInt (n : Int) : JSNumber := .finite n 0

/-- The comparison `a < b`, false when either side is `NaN`. -/
def lt : JSNumber → JSNumber → Bool
  | .nan, _ => false
  | _, .nan => false
  | .infinity n1, .infinity n2 => n1 && !n2
  | .infinity n1, .finite _ _ => n1
  | .finite _ _, .infinity n2 => !n2
  | .finite a i, .finite b j => decide (a * 2 ^ j < b * 2 ^ i)

/-- The comparison `a <= b`, false when either side is `NaN`. -/
def le : JSNumber → JSNumber → Bool
  | .nan, _ => false
  | _, .nan => false
  | .infinity n1, .infinity n2 => n1 || !n2
  | .infinity n1, .finite _ _ => n1
  | .finite _ _, .infinity n2 => !n2
  | .finite a i, .finite b j => decide (a * 2 ^ j ≤ b * 2 ^ i)

/-- The fraction digits of `r / 2 ^ shift` for `0 < r < 2 ^ shift`: the digits of
`r * 5 ^ shift`, padded on the left to `shift` places, without the zeros at the end. -/
def fractionDigits (r shift : Nat) : String :=
  let digits := (toString (r * 5 ^ shift)).toList
  let padded := List.replicate (shift - digits.length) '0' ++ digits
  String.mk (padded.reverse.dropWhile (fun c => c == '0')).reverse

/-- The text of a number inside a template literal. An integer prints its decimal
digits (as JavaScript does below `10 ^ 21` in magnitude); any other finite number prints
its exact decimal expansion, which is the JavaScript text for numbers such as 2.5 or
0.75 but is longer than it for a number such as the double nearest to 0.1. -/
def toString : JSNumber → String
  | .nan => "NaN"
  | .infinity false => "Infinity"
  | .infinity true => "-Infinity"
  | .finite a shift =>
    if a % 2 ^ shift = 0 then ToString.toString (a / 2 ^ shift)
    else
      (if a < 0 then "-" else "") ++ ToString.toString (a.natAbs / 2 ^ shift) ++ "."
        ++ fractionDigits (a.natAbs % 2 ^ shift) shift

/-- The index at which `array.splice(start)` starts on an array of length `len`:
`start` is truncated toward zero (`NaN` counts as 0), a negative value counts from the
end, and the result is kept within `[0, len]`. -/
def spliceStart (len : Nat) : JSNumber → Nat
  | .nan => 0
  | .infinity true => 0
  | .infinity false => len
  | .finite a shift =>
    let t : Int := if 0 ≤ a then a / 2 ^ shift else -((-a) / 2 ^ shift)
    if t < 0 then ((len : Int) + t).toNat else min t.toNat len

end JSNumber

/-- The `Stack` class with `_capacity` an arbitrary number. -/
structure JsStack (α : Type) where
  items : List α
  capacity : JSNumber
deriving DecidableEq, Repr

namespace JsStack

variable {α : Type}

/-- The call `new Stack(capacity)`; `none` is the omitted argument (default 5). -/
def new (capacity : Option JSNumber) : JsStack α :=
  { items := [], capacity := capacity.getD (JSNumber.ofInt 5) }

/-- Method `push(val)`: the test is `this.items.length >= this._capacity`. -/
def push [ToString α] (s : JsStack α) (val : α) : JsStack α × Result α :=
  if JSNumber.le s.capacity (JSNumber.ofInt s.items.length) then
    (s, { success := false, message := "Stack Overflow! Cannot push to full stack.",
          value := none })
  else
    ({ s with items := s.items ++ [val] },
     { success := true, message := "Pushed \"" ++ toString val ++ "\" to stack",
       value := none })

/-- Method `pop()`. -/
def pop [ToString α] (s : JsStack α) : JsStack α × Result α :=
  if h : s.items.length = 0 then
    (s, { success := false, message := "Stack Underflow! Cannot pop from empty stack.",
          value := none })
  else
    let val := s.items.getLast (fun hnil => h (by rw [hnil]; rfl))
    ({ s with items := s.items.dropLast },
     { success := true, message := "Popped \"" ++ toString val ++ "\" from stack",
       value := some val })

/-- Method `peek()`. -/
def peek [ToString α] (s : JsStack α) : JsStack α × Result α :=
  if h : s.items.length = 0 then
    (s, { success := false, message := "Stack is empty! Nothing to peek.", value := none })
  else
    let val := s.items.get ⟨s.items.length - 1, Nat.sub_lt (Nat.pos_of_ne_zero h) Nat.one_pos⟩
    (s, { success := true, message := "Top value is \"" ++ toString val ++ "\"",
          value := some val })

/-- Method `clear()`. -/
def clear (s : JsStack α) : JsStack α × Result α :=
  ({ s with items := [] },
   { success := true, message := "Stack cleared successfully", value := none })

/-- Method `resize(newCapacity)`: the guard is `newCapacity < 1`, the capacity is then
assigned whatever number was passed, and the test for truncation is
`this.items.length > newCapacity`. -/
def resize (s : JsStack α) (newCapacity : JSNumber) : JsStack α × Result α :=
  if JSNumber.lt newCapacity (JSNumber.ofInt 1) then
    (s, { success := false, message := "Capacity must be at least 1", value := none })
  else
    let oldCapacity := s.capacity
    if JSNumber.lt newCapacity (JSNumber.ofInt s.items.length) then
      let start := JSNumber.spliceStart s.items.length newCapacity
      let removed := s.items.drop start
      ({ items := s.items.take start, capacity := newCapacity },
       { success := true,
         message := "Resized from " ++ oldCapacity.toString ++ " to " ++ newCapacity.toString
           ++ ". Removed " ++ toString removed.length ++ " items.",
         value := none })
    else
      ({ items := s.items, capacity := newCapacity },
       { success := true,
         message := "Resized from " ++ oldCapacity.toString ++ " to " ++ newCapacity.toString,
         value := none })

end JsStack

/-- One call on the engine, `resize` with an arbitrary number. -/
inductive JsOp (α : Type) where
  | push (val : α)
  | pop
  | peek
  | clear
  | resize (newCapacity : JSNumber)
deriving DecidableEq, Repr

/-- Performing one engine call. -/
def JsOp.apply {α : Type} [ToString α] (s : JsStack α) : JsOp α → JsStack α × Result α
  | .push val => s.push val
  | .pop => s.pop
  | .peek => s.peek
  | .clear => s.clear
  | .resize n => s.resize n

/-- The calls of `ops` made one after the other on `s`: the stack and the result
record after each call, in order. -/
def jsRunTrace {α : Type} [ToString α] (s : JsStack α) :
    List (JsOp α) → List (JsStack α × Result α)
  | [] => []
  | op :: ops => JsOp.apply s op :: jsRunTrace (JsOp.apply s op).1 ops

/-- A stack with an integer capacity, as a stack with a number for capacity. -/
def Stack.toJs {α : Type} (s : Stack α) : JsStack α :=
  { items := s.items, capacity := JSNumber.ofInt s.capacity }

/-- A call with an integer argument, as a call with a number for argument. -/
def Op.toJs {α : Type} : Op α → JsOp α
  | .push val => .push val
  | .pop => .pop
  | .peek => .peek
  | .clear => .clear
  | .resize n => .resize (JSNumber.ofInt n)

/-! ## The session controller (lines 78-80 and 362-393) -/

/-- The global session state: `stack` and `isAnimating`. The values on the stack are
strings (the trimmed text input, or one of the symbols of `randomizeStack`). -/
structure App where
  stack : Stack String
  isAnimating : Bool
deriving DecidableEq, Repr

/-- A call made by a handler: a call on the engine with the record it returned, or
one of the calls on the page. -/
inductive Call where
  | engine (op : Op String) (result : Result String)
  | updateLastOperation (message : String)
  | setCapacityInput (value : String)
  | showToast (title message type : String)
  | render
deriving DecidableEq, Repr

/-- Whether a call is a `push` on the engine. -/
def Call.isEnginePush : Call → Bool
  | .engine (.push _) _ => true
  | _ => false

/-- Handler `resizeStack()` (lines 362-376). `newCapacity` is the value of
`parseInt(elements.capacityInput.value)`: `none` is `NaN`, for which `!newCapacity`
is true; for an integer, `!newCapacity` is true exactly at zero. -/
def resizeStack (app : App) (newCapacity : Option Int) : App × List Call :=
  if app.isAnimating then (app, [])
  else
    match newCapacity with
    | none =>
      (app, [Call.showToast "Invalid Input" "Capacity must be between 1 and 20" "warning"])
    | some n =>
      if n = 0 ∨ n < 1 ∨ n > 20 then
        (app, [Call.showToast "Invalid Input" "Capacity must be between 1 and 20" "warning"])
      else
        let result := app.stack.resize n
        ({ app with stack := result.1 },
         [Call.engine (Op.resize n) result.2,
          Call.updateLastOperation result.2.message,
          Call.setCapacityInput "",
          Call.showToast "Success" result.2.message "success",
          Call.render])

/-- A value returned by `Math.random()`: a double `r` with `0 ≤ r < 1`, given as
`mantissa / 2 ^ exponent`. Every double in that range has this form (a normal one has a
significand below `2 ^ 53` and a binary exponent from -1022 to -1, a subnormal one is a
multiple of `2 ^ (-1074)`), and every number of this form is such a double. -/
structure UnitDraw where
  mantissa : Nat
  exponent : Nat
  mantissa_lt : mantissa < 2 ^ 53
  exponent_ge : 53 ≤ exponent
  exponent_le : exponent ≤ 1074

/-- The number of low bits of `n` that do not fit a 53-bit significand: the least `s`
with `n < 2 ^ (53 + s)`, found by halving (`fuel` bounds the number of halvings, and
`fuel = n` is always enough). -/
def excessBits : Nat → Nat → Nat
  | 0, _ => 0
  | fuel + 1, n => if n < 2 ^ 53 then 0 else excessBits fuel (n / 2) + 1

/-- The natural number `n` rounded to the nearest number with a 53-bit significand, a
tie going to the even significand: the rounding of IEEE 754 double arithmetic. -/
def roundToDouble (n : Nat) : Nat :=
  if n < 2 ^ 53 then n
  else
    let s := excessBits n n
    let q := n / 2 ^ s
    let rem := n % 2 ^ s
    let half := 2 ^ (s - 1)
    if rem < half ∨ (rem = half ∧ q % 2 = 0) then q * 2 ^ s else (q + 1) * 2 ^ s

/-- The expression `Math.floor(Math.random() * n)` for the draw `r` and a positive
integer `n` that is itself a double: the product of the two doubles is the exact product
`mantissa * n / 2 ^ exponent` rounded to the nearest double (the significand
`mantissa * n` is rounded, the scaling by a power of two is exact), and its floor is
below `n`. -/
def floorRandomTimes (r : UnitDraw) (n : Nat) (_hn : 0 < n) : Fin n :=
  ⟨roundToDouble (r.mantissa * n) / 2 ^ r.exponent, by
    have hbits : ∀ fuel k : Nat,
        excessBits fuel k = 0 ∨ 2 ^ (52 + excessBits fuel k) ≤ k := by
      intro fuel
      induction fuel with
      | zero => intro k; exact Or.inl rfl
      | succ fuel ih =>
        intro k
        unfold excessBits
        by_cases hk : k < 2 ^ 53
        · rw [if_pos hk]; exact Or.inl rfl
        · rw [if_neg hk]
          right
          rcases ih (k / 2) with h0 | h0
          · rw [h0]
            exact not_lt.mp hk
          · have h2 : 2 * (k / 2) ≤ k := Nat.mul_div_le k 2
            have h3 : 2 ^ (52 + (excessBits fuel (k / 2) + 1))
                = 2 * 2 ^ (52 + excessBits fuel (k / 2)) := by
              rw [← Nat.add_assoc, Nat.pow_succ, Nat.mul_comm]
            omega
    have hround : ∀ k : Nat, roundToDouble k * 2 ^ 53 ≤ k * 2 ^ 53 + k := by
      intro k
      unfold roundToDouble
      by_cases hk : k < 2 ^ 53
      · rw [if_pos hk]; omega
      · rw [if_neg hk]
        simp only
        have hdm : 2 ^ excessBits k k * (k / 2 ^ excessBits k k) + k % 2 ^ excessBits k k
            = k := Nat.div_add_mod k _
        split
        · have : k / 2 ^ excessBits k k * 2 ^ excessBits k k ≤ k := Nat.div_mul_le_self k _
          exact Nat.le_add_right_of_le (Nat.mul_le_mul_right _ this)
        · rename_i hup
          have hrem : 2 ^ (excessBits k k - 1) ≤ k % 2 ^ excessBits k k := by
            by_contra hlt
            exact hup (Or.inl (not_le.mp hlt))
          rcases hbits k k with h0 | h0
          · rw [h0] at hrem
            simp at hrem
            omega
          · have hs : 0 < excessBits k k := by
              by_contra h0'
              have : excessBits k k = 0 := by omega
              rw [this] at hrem
              simp at hrem
              omega
            have hpow : 2 ^ excessBits k k = 2 * 2 ^ (excessBits k k - 1) := by
              rw [← Nat.pow_succ']
              congr 1
              omega
            have hpow2 : 2 ^ (52 + excessBits k k)
                = 2 ^ 53 * 2 ^ (excessBits k k - 1) := by
              rw [← Nat.pow_add]
              congr 1
              omega
            have e1 : (k / 2 ^ excessBits k k + 1) * 2 ^ excessBits k k
                = 2 ^ excessBits k k * (k / 2 ^ excessBits k k) + 2 ^ excessBits k k := by
              ring
            rw [e1]
            have e2 : 2 ^ excessBits k k * (k / 2 ^ excessBits k k) + 2 ^ excessBits k k
                ≤ k + 2 ^ (excessBits k k - 1) := by omega
            calc (2 ^ excessBits k k * (k / 2 ^ excessBits k k) + 2 ^ excessBits k k)
                  * 2 ^ 53
                ≤ (k + 2 ^ (excessBits k k - 1)) * 2 ^ 53 := Nat.mul_le_mul_right _ e2
              _ = k * 2 ^ 53 + 2 ^ 53 * 2 ^ (excessBits k k - 1) := by ring
              _ ≤ k * 2 ^ 53 + k := by rw [← hpow2]; omega
    have hm := r.mantissa_lt
    have hN : r.mantissa * n + n ≤ 2 ^ 53 * n := by
      have : (r.mantissa + 1) * n ≤ 2 ^ 53 * n := Nat.mul_le_mul_right n hm
      calc r.mantissa * n + n = (r.mantissa + 1) * n := by ring
        _ ≤ 2 ^ 53 * n := this
    have hlt : roundToDouble (r.mantissa * n) < 2 ^ 53 * n := by
      have h1 := hround (r.mantissa * n)
      by_contra hge
      have h3 : 2 ^ 53 * n * 2 ^ 53 ≤ roundToDouble (r.mantissa * n) * 2 ^ 53 :=
        Nat.mul_le_mul_right _ (not_lt.mp hge)
      have h4 : (r.mantissa * n + n) * 2 ^ 53 ≤ 2 ^ 53 * n * 2 ^ 53 :=
        Nat.mul_le_mul_right _ hN
      have h5 : n * 2 ^ 53 ≤ r.mantissa * n := by
        have : (r.mantissa * n + n) * 2 ^ 53
            = r.mantissa * n * 2 ^ 53 + n * 2 ^ 53 := by ring
        omega
      have h6 : n ≤ n * 2 ^ 53 := Nat.le_mul_of_pos_right n (by positivity)
      omega
    apply Nat.div_lt_of_lt_mul
    calc roundToDouble (r.mantissa * n) < 2 ^ 53 * n := hlt
      _ ≤ 2 ^ r.exponent * n :=
        Nat.mul_le_mul_right n (Nat.pow_le_pow_right (by decide) r.exponent_ge)⟩

/-- The array `values` of `randomizeStack` (line 382). -/
def values : List String :=
  ["A", "B", "C", "X", "Y", "Z", "1", "2", "3", "‚òÖ", "‚ô¶", "‚ô†"]

/-- The expression `values[Math.floor(Math.random() * values.length)]` for the draw
`r`. -/
def randomValue (r : UnitDraw) : String :=
  values.get (floorRandomTimes r values.length (by decide))

/-- The expression `Math.floor(Math.random() * stack.capacity) + 1` for the draw `r`
and an integer capacity that is itself a double. For a capacity that is not positive
the product is the negative of the rounded magnitude. -/
def randomPushCount (r : UnitDraw) (capacity : Int) : Int :=
  if h : 0 < capacity then
    ((floorRandomTimes r capacity.toNat (by omega)).val : Int) + 1
  else
    Int.fdiv (-(roundToDouble (r.mantissa * capacity.natAbs) : Int)) (2 ^ r.exponent) + 1

/-- The loop `for (let i = 0; i < pushCount; i++)` of `randomizeStack` from the
iteration `i` on, with `remaining` iterations left; `random k` is what the `k`-th call
of `Math.random()` in the handler returns (call 0 chose `pushCount`). -/
def randomizeLoop (random : Nat → UnitDraw) (i : Nat) :
    Nat → Stack String → Stack String × List Call
  | 0, stack => (stack, [])
  | remaining + 1, stack =>
    let value := randomValue (random (i + 1))
    let result := stack.push value
    let rest := randomizeLoop random (i + 1) remaining result.1
    (rest.1, Call.engine (Op.push value) result.2 :: rest.2)

/-- Handler `randomizeStack()` (lines 378-393). -/
def randomizeStack (app : App) (random : Nat → UnitDraw) : App × List Call :=
  if app.isAnimating then (app, [])
  else
    let cleared := app.stack.clear
    let pushCount := randomPushCount (random 0) cleared.1.capacity
    let loop := randomizeLoop random 0 pushCount.toNat cleared.1
    ({ app with stack := loop.1 },
     Call.engine Op.clear cleared.2 :: loop.2 ++
      [Call.updateLastOperation ("Randomized stack with " ++ toString pushCount ++ " items"),
       Call.showToast "Randomized"
         ("Added " ++ toString pushCount ++ " random items to stack") "default",
       Call.render])

/-! ## Single-call facts about the engine -/

theorem push_of_lt {α : Type} [ToString α] (s : Stack α) (v : α)
    (h : (s.items.length : Int) < s.capacity) :
    s.push v = ({ s with items := s.items ++ [v] },
      { success := true, message := "Pushed \"" ++ toString v ++ "\" to stack",
        value := none }) := by
  unfold Stack.push
  rw [if_neg (not_le.mpr h)]

theorem push_of_ge {α : Type} [ToString α] (s : Stack α) (v : α)
    (h : s.capacity ≤ (s.items.length : Int)) :
    s.push v =
      (s, { success := false, message := "Stack Overflow! Cannot push to full stack.",
            value := none }) := by
  unfold Stack.push
  rw [if_pos h]

theorem pop_of_nil {α : Type} [ToString α] (s : Stack α) (h : s.items = []) :
    s.pop =
      (s, { success := false, message := "Stack Underflow! Cannot pop from empty stack.",
            value := none }) := by
  unfold Stack.pop
  rw [dif_pos (by rw [h]; rfl)]

theorem peek_of_nil {α : Type} [ToString α] (s : Stack α) (h : s.items = []) :
    s.peek =
      (s, { success := false, message := "Stack is empty! Nothing to peek.",
            value := none }) := by
  unfold Stack.peek
  rw [dif_pos (by rw [h]; rfl)]

theorem pop_of_ne_nil {α : Type} [ToString α] (s : Stack α) (h : s.items ≠ []) :
    s.pop = ({ s with items := s.items.dropLast },
      { success := true,
        message := "Popped \"" ++ toString (s.items.getLast h) ++ "\" from stack",
        value := some (s.items.getLast h) }) := by
  unfold Stack.pop
  rw [dif_neg (fun h0 => h (List.length_eq_zero.mp h0))]

theorem peek_of_ne_nil {α : Type} [ToString α] (s : Stack α) (h : s.items ≠ []) :
    s.peek = (s,
      { success := true,
        message := "Top value is \"" ++ toString (s.items.getLast h) ++ "\"",
        value := some (s.items.getLast h) }) := by
  unfold Stack.peek
  rw [dif_neg (fun h0 => h (List.length_eq_zero.mp h0))]
  simp only [List.get_eq_getElem, List.getLast_eq_getElem]

theorem pop_append_singleton {α : Type} [ToString α] (l : List α) (x : α) (c : Int) :
    (Stack.mk (l ++ [x]) c).pop = (Stack.mk l c,
      { success := true, message := "Popped \"" ++ toString x ++ "\" from stack",
        value := some x }) := by
  rw [pop_of_ne_nil _ (by simp)]
  simp

theorem resize_of_lt_one {α : Type} (s : Stack α) (n : Int) (h : n < 1) :
    s.resize n =
      (s, { success := false, message := "Capacity must be at least 1", value := none }) := by
  unfold Stack.resize
  rw [if_pos h]

theorem resize_of_lt_length {α : Type} (s : Stack α) (n : Int) (hn : 1 ≤ n)
    (hlt : n < (s.items.length : Int)) :
    s.resize n =
      ({ items := s.items.take n.toNat, capacity := n },
       { success := true,
         message := "Resized from " ++ toString s.capacity ++ " to " ++ toString n
           ++ ". Removed " ++ toString (s.items.drop n.toNat).length ++ " items.",
         value := none }) := by
  unfold Stack.resize
  rw [if_neg (not_lt.mpr hn)]
  simp only [gt_iff_lt]
  rw [if_pos hlt]

theorem resize_of_length_le {α : Type} (s : Stack α) (n : Int) (hn : 1 ≤ n)
    (hge : (s.items.length : Int) ≤ n) :
    s.resize n =
      ({ items := s.items, capacity := n },
       { success := true,
         message := "Resized from " ++ toString s.capacity ++ " to " ++ toString n,
         value := none }) := by
  unfold Stack.resize
  rw [if_neg (not_lt.mpr hn)]
  simp only [gt_iff_lt]
  rw [if_neg (not_lt.mpr hge)]

theorem resize_success {α : Type} (s : Stack α) (n : Int) (hn : 1 ≤ n) :
    (s.resize n).2.success = true := by
  by_cases hlt : n < (s.items.length : Int)
  · rw [resize_of_lt_length s n hn hlt]
  · rw [resize_of_length_le s n hn (not_lt.mp hlt)]

/-! ## The claims about single calls -/

/-- Claim C2: on a stack with `items.length ≤ capacity`, `push(v)` returns
`success = false` exactly when `items.length = capacity`, and then leaves the stack
(items and capacity) unchanged; otherwise it returns `success = true`, the items
become the previous items with `v` appended at the end, every earlier item keeps its
index, and the capacity is unchanged. -/
theorem push_fails_iff_full {α : Type} [ToString α] (s : Stack α) (v : α)
    (h : (s.items.length : Int) ≤ s.capacity) :
    ((s.push v).2.success = false ↔ (s.items.length : Int) = s.capacity) ∧
    ((s.items.length : Int) = s.capacity →
      (s.push v).1.items = s.items ∧ (s.push v).1.capacity = s.capacity) ∧
    ((s.items.length : Int) ≠ s.capacity →
      (s.push v).2.success = true ∧
      (s.push v).1.items = s.items ++ [v] ∧
      (∀ i, i < s.items.length → (s.push v).1.items[i]? = s.items[i]?) ∧
      (s.push v).1.capacity = s.capacity) := by
  by_cases hfull : (s.items.length : Int) = s.capacity
  · rw [push_of_ge s v (le_of_eq hfull.symm)]
    simp [hfull]
  · have hlt : (s.items.length : Int) < s.capacity := lt_of_le_of_ne h hfull
    rw [push_of_lt s v hlt]
    refine ⟨by simp [hfull], fun h0 => absurd h0 hfull, fun _ => ⟨rfl, rfl, ?_, rfl⟩⟩
    intro i hi
    exact List.getElem?_append_left hi

theorem push_fails_iff_full_witness :
    (((Stack.mk ["A", "B"] 2 : Stack String).items.length : Int)
        ≤ (Stack.mk ["A", "B"] 2 : Stack String).capacity) ∧
    (((Stack.mk ["A", "B"] 2 : Stack String).push "C").2.success = false ↔
      (((Stack.mk ["A", "B"] 2 : Stack String).items.length : Int)
        = (Stack.mk ["A", "B"] 2 : Stack String).capacity)) :=
  ⟨by decide, (push_fails_iff_full (Stack.mk ["A", "B"] 2) "C" (by decide)).1⟩

/-- Claim C4: for every integer `n ≥ 1`, `resize(n)` succeeds and sets the capacity
to `n`; when `n < size()` the items become exactly the first `n` items in their
original order (there are `n` of them and each keeps its index) and the message
reports `size() - n` removed items; when `n ≥ size()` the items are unchanged. -/
theorem resize_ok {α : Type} (s : Stack α) (n : Int) (hn : 1 ≤ n) :
    (s.resize n).2.success = true ∧
    (s.resize n).1.capacity = n ∧
    (n < (s.size : Int) →
      (s.resize n).1.items = s.items.take n.toNat ∧
      ((s.resize n).1.items.length : Int) = n ∧
      (∀ i, i < (s.resize n).1.items.length → (s.resize n).1.items[i]? = s.items[i]?) ∧
      ∃ k : Nat, (k : Int) = (s.size : Int) - n ∧
        (s.resize n).2.message =
          "Resized from " ++ toString s.capacity ++ " to " ++ toString n
            ++ ". Removed " ++ toString k ++ " items.") ∧
    ((s.size : Int) ≤ n → (s.resize n).1.items = s.items) := by
  unfold Stack.size
  by_cases hlt : n < (s.items.length : Int)
  · have hle : n.toNat ≤ s.items.length := by omega
    rw [resize_of_lt_length s n hn hlt]
    refine ⟨rfl, rfl, fun _ => ⟨rfl, ?_, ?_, ⟨s.items.length - n.toNat, ?_, ?_⟩⟩,
      fun hge => absurd hlt (not_lt.mpr hge)⟩
    · simp only [List.length_take]
      omega
    · intro i hi
      simp only [List.length_take] at hi
      exact List.getElem?_take_of_lt (by omega)
    · omega
    · simp only [List.length_drop]
  · rw [resize_of_length_le s n hn (not_lt.mp hlt)]
    exact ⟨rfl, rfl, fun h0 => absurd h0 hlt, fun _ => rfl⟩

theorem resize_ok_witness :
    (1 : Int) ≤ 2 ∧
    ((Stack.mk ["A", "B", "C"] 5 : Stack String).resize 2).2.success = true ∧
    ((Stack.mk ["A", "B", "C"] 5 : Stack String).resize 2).1.capacity = 2 :=
  ⟨by decide, (resize_ok (Stack.mk ["A", "B", "C"] 5) 2 (by decide)).1,
    (resize_ok (Stack.mk ["A", "B", "C"] 5) 2 (by decide)).2.1⟩

/-- Claim C7: `pop()` and `peek()` return `success = false` if and only if the stack
is empty; on an empty stack of any capacity each returns a failed record carrying
no value and leaves the stack unchanged, so `size()` stays 0 and `getTopIndex()`
stays -1. -/
theorem pop_peek_fail_iff_empty {α : Type} [ToString α] (s : Stack α) :
    ((s.pop).2.success = false ↔ s.items = []) ∧
    ((s.peek).2.success = false ↔ s.items = []) ∧
    (s.items = [] →
      (s.pop).2.success = false ∧ (s.pop).2.value = none ∧ (s.pop).1 = s ∧
      (s.peek).2.success = false ∧ (s.peek).2.value = none ∧ (s.peek).1 = s ∧
      (s.pop).1.size = 0 ∧ (s.pop).1.getTopIndex = -1 ∧
      (s.peek).1.size = 0 ∧ (s.peek).1.getTopIndex = -1) := by
  by_cases h : s.items = []
  · rw [pop_of_nil s h, peek_of_nil s h]
    simp [h, Stack.size, Stack.getTopIndex]
  · rw [pop_of_ne_nil s h, peek_of_ne_nil s h]
    simp [h]

/-- Claim C8: for every integer `n < 1`, `resize(n)` returns `success = false` with
the message "Capacity must be at least 1" and leaves items and capacity unchanged;
and `resize(n)` fails for no integer `n ≥ 1`. -/
theorem resize_fails_iff_lt_one {α : Type} (s : Stack α) (n : Int) :
    (n < 1 →
      (s.resize n).2.success = false ∧
      (s.resize n).2.message = "Capacity must be at least 1" ∧
      (s.resize n).1.items = s.items ∧ (s.resize n).1.capacity = s.capacity) ∧
    (1 ≤ n → (s.resize n).2.success = true) := by
  refine ⟨fun h => ?_, fun h => resize_success s n h⟩
  rw [resize_of_lt_one s n h]
  exact ⟨rfl, rfl, rfl, rfl⟩

/-- Claim C5, as stated, fails on a full stack: with capacity 1 and items `["A"]`,
`push("B")` is rejected, the following `pop()` returns "A" and the size drops from 1
to 0. -/
theorem push_pop_full_counterexample :
    (((Stack.mk ["A"] 1 : Stack String).push "B").1.pop).2.value = some "A" ∧
    (((Stack.mk ["A"] 1 : Stack String).push "B").1.pop).1.size = 0 ∧
    (Stack.mk ["A"] 1 : Stack String).size = 1 ∧
    ¬ ((((Stack.mk ["A"] 1 : Stack String).push "B").1.pop).2.value = some "B" ∧
       (((Stack.mk ["A"] 1 : Stack String).push "B").1.pop).1.size
         = (Stack.mk ["A"] 1 : Stack String).size) := by
  decide

/-- Claim C5, amended: on a stack that is not full (`items.length < capacity`),
`push(v)` followed at once by `pop()` makes both calls succeed, the pop returns `v`,
and the size (indeed the whole stack) is what it was before the two calls. -/
theorem push_pop_roundtrip {α : Type} [ToString α] (s : Stack α) (v : α)
    (h : (s.items.length : Int) < s.capacity) :
    (s.push v).2.success = true ∧
    ((s.push v).1.pop).2.success = true ∧
    ((s.push v).1.pop).2.value = some v ∧
    ((s.push v).1.pop).1.size = s.size ∧
    ((s.push v).1.pop).1 = s := by
  rw [push_of_lt s v h]
  simp [pop_append_singleton, Stack.size]

theorem push_pop_roundtrip_witness :
    (((Stack.mk ["A"] 2 : Stack String).items.length : Int)
        < (Stack.mk ["A"] 2 : Stack String).capacity) ∧
    (((Stack.mk ["A"] 2 : Stack String).push "B").1.pop).2.value = some "B" ∧
    (((Stack.mk ["A"] 2 : Stack String).push "B").1.pop).1.size
      = (Stack.mk ["A"] 2 : Stack String).size :=
  ⟨by decide, (push_pop_roundtrip (Stack.mk ["A"] 2) "B" (by decide)).2.2.1,
    (push_pop_roundtrip (Stack.mk ["A"] 2) "B" (by decide)).2.2.2.1⟩

/-! ## Sequences of calls -/

theorem runOps_append {α : Type} [ToString α] (s : Stack α) (a b : List (Op α)) :
    runOps s (a ++ b) = runOps (runOps s a) b := by
  induction a generalizing s with
  | nil => rfl
  | cons op a ih => exact ih _

theorem runTrace_append {α : Type} [ToString α] (s : Stack α) (a b : List (Op α)) :
    runTrace s (a ++ b) = runTrace s a ++ runTrace (runOps s a) b := by
  induction a generalizing s with
  | nil => rfl
  | cons op a ih =>
    show Op.apply s op :: runTrace _ (a ++ b) = _
    rw [ih]
    rfl

theorem runTrace_length {α : Type} [ToString α] (s : Stack α) (ops : List (Op α)) :
    (runTrace s ops).length = ops.length := by
  induction ops generalizing s with
  | nil => rfl
  | cons op ops ih => simp [runTrace, ih]

/-- Pushing `vs` onto a stack with room for all of them appends `vs`, and every push
succeeds. -/
theorem runOps_pushes {α : Type} [ToString α] (vs : List α) (s : Stack α)
    (h : (s.items.length : Int) + vs.length ≤ s.capacity) :
    runOps s (vs.map Op.push) = { items := s.items ++ vs, capacity := s.capacity } ∧
    ∀ r ∈ runTrace s (vs.map Op.push), r.2.success = true := by
  induction vs generalizing s with
  | nil => simp [runOps, runTrace]
  | cons v vs ih =>
    have hlt : (s.items.length : Int) < s.capacity := by
      simp only [List.length_cons, Nat.cast_add, Nat.cast_one] at h
      omega
    have hstep : Op.apply s (Op.push v) = _ := push_of_lt s v hlt
    have h2 : ((s.items ++ [v]).length : Int) + vs.length ≤ s.capacity := by
      simp only [List.length_cons, List.length_append, List.length_nil, Nat.cast_add,
        Nat.cast_one] at h ⊢
      omega
    obtain ⟨ih1, ih2⟩ := ih { s with items := s.items ++ [v] } h2
    constructor
    · show runOps (Op.apply s (Op.push v)).1 (vs.map Op.push) = _
      rw [hstep, ih1]
      simp
    · intro r hr
      change r ∈ Op.apply s (Op.push v) :: runTrace (Op.apply s (Op.push v)).1 _ at hr
      rw [hstep] at hr
      rcases List.mem_cons.mp hr with h0 | h0
      · rw [h0]
      · exact ih2 r h0

/-- Popping `j` times from a stack whose newest items are `rs` (newest first) returns
the first `j` of them, in that order, and removes exactly those. -/
theorem runOps_pops {α : Type} [ToString α] (j : Nat) (rs base : List α) (c : Int)
    (h : j ≤ rs.length) :
    runOps (Stack.mk (base ++ rs.reverse) c) (List.replicate j Op.pop)
      = Stack.mk (base ++ (rs.drop j).reverse) c ∧
    (runTrace (Stack.mk (base ++ rs.reverse) c) (List.replicate j Op.pop)).map
      (fun r => r.2.value) = (rs.take j).map some ∧
    ∀ r ∈ runTrace (Stack.mk (base ++ rs.reverse) c) (List.replicate j Op.pop),
      r.2.success = true := by
  induction j generalizing rs with
  | zero => simp [runOps, runTrace]
  | succ j ih =>
    match rs, h with
    | x :: rs, h =>
      have hj : j ≤ rs.length := by simpa using h
      have hstep : Op.apply (Stack.mk (base ++ (x :: rs).reverse) c) Op.pop
          = (Stack.mk (base ++ rs.reverse) c,
             { success := true, message := "Popped \"" ++ toString x ++ "\" from stack",
               value := some x }) := by
        have := pop_append_singleton (base ++ rs.reverse) x c
        simpa [Op.apply] using this
      obtain ⟨ih1, ih2, ih3⟩ := ih rs hj
      refine ⟨?_, ?_, ?_⟩
      · show runOps (Op.apply _ Op.pop).1 (List.replicate j Op.pop) = _
        rw [hstep, ih1]
        simp
      · show ((Op.apply _ Op.pop) :: runTrace (Op.apply _ Op.pop).1
          (List.replicate j Op.pop)).map _ = _
        rw [hstep, List.map_cons, ih2]
        simp
      · intro r hr
        change r ∈ (Op.apply _ Op.pop) :: runTrace (Op.apply _ Op.pop).1
          (List.replicate j Op.pop) at hr
        rw [hstep] at hr
        rcases List.mem_cons.mp hr with h0 | h0
        · rw [h0]
        · exact ih3 r h0

/-- After pushing `vs` (with room for all) and popping `j ≤ vs.length` times. -/
theorem runOps_pushes_pops {α : Type} [ToString α] (s : Stack α) (vs : List α) (j : Nat)
    (h : (s.items.length : Int) + vs.length ≤ s.capacity) (hj : j ≤ vs.length) :
    runOps s (vs.map Op.push ++ List.replicate j Op.pop)
      = Stack.mk (s.items ++ (vs.reverse.drop j).reverse) s.capacity ∧
    (runTrace (runOps s (vs.map Op.push)) (List.replicate j Op.pop)).map
      (fun r => r.2.value) = (vs.reverse.take j).map some ∧
    ∀ r ∈ runTrace (runOps s (vs.map Op.push)) (List.replicate j Op.pop),
      r.2.success = true := by
  have hp := (runOps_pushes vs s h).1
  have hq := runOps_pops j vs.reverse s.items s.capacity (by simpa using hj)
  rw [List.reverse_reverse] at hq
  rw [runOps_append, hp]
  exact hq

/-- Claim C3 (LIFO order): on a stack with room for `v1..vk`, pushing them in that
order and then calling `pop()` `k` times makes all `2k` calls succeed, makes the pops
return `vk, ..., v1` in that order, and leaves the stack as it was before the pushes;
and `peek()` called just before the `j`-th of those pops succeeds, returns the value
that pop then returns, and changes neither items nor capacity. -/
theorem lifo_order {α : Type} [ToString α] (s : Stack α) (vs : List α)
    (h : (s.items.length : Int) + vs.length ≤ s.capacity) :
    (runTrace s (vs.map Op.push ++ List.replicate vs.length Op.pop)).length
      = 2 * vs.length ∧
    (∀ r ∈ runTrace s (vs.map Op.push ++ List.replicate vs.length Op.pop),
      r.2.success = true) ∧
    ((runTrace s (vs.map Op.push ++ List.replicate vs.length Op.pop)).drop vs.length).map
      (fun r => r.2.value) = vs.reverse.map some ∧
    runOps s (vs.map Op.push ++ List.replicate vs.length Op.pop) = s ∧
    ∀ j, j < vs.length →
      ((runOps s (vs.map Op.push ++ List.replicate j Op.pop)).peek).2.success = true ∧
      ((runOps s (vs.map Op.push ++ List.replicate j Op.pop)).peek).2.value
        = ((runOps s (vs.map Op.push ++ List.replicate j Op.pop)).pop).2.value ∧
      ((runOps s (vs.map Op.push ++ List.replicate j Op.pop)).pop).2.value
        = vs.reverse[j]? ∧
      ((runOps s (vs.map Op.push ++ List.replicate j Op.pop)).peek).1
        = runOps s (vs.map Op.push ++ List.replicate j Op.pop) := by
  obtain ⟨hall1, hall2, hall3⟩ := runOps_pushes_pops s vs vs.length h le_rfl
  have hpush := (runOps_pushes vs s h).2
  have hlen : (runTrace s (vs.map Op.push)).length = vs.length := by
    rw [runTrace_length, List.length_map]
  refine ⟨?_, ?_, ?_, ?_, ?_⟩
  · rw [runTrace_length]
    simp
    omega
  · intro r hr
    rw [runTrace_append] at hr
    rcases List.mem_append.mp hr with h0 | h0
    · exact hpush r h0
    · exact hall3 r h0
  · rw [runTrace_append, List.drop_left' hlen, hall2]
    rw [List.take_of_length_le (by simp)]
  · rw [hall1, List.drop_of_length_le (by simp)]
    simp
  · intro j hj
    obtain ⟨hst, -, -⟩ := runOps_pushes_pops s vs j h (le_of_lt hj)
    have hjr : j < vs.reverse.length := by simpa using hj
    have hdrop : vs.reverse.drop j = vs.reverse[j] :: vs.reverse.drop (j + 1) :=
      List.drop_eq_getElem_cons hjr
    have hitems : s.items ++ (vs.reverse.drop j).reverse
        = (s.items ++ (vs.reverse.drop (j + 1)).reverse) ++ [vs.reverse[j]] := by
      rw [hdrop, List.reverse_cons, List.append_assoc]
    rw [hst, hitems]
    have hne : (s.items ++ (vs.reverse.drop (j + 1)).reverse) ++ [vs.reverse[j]] ≠ [] := by
      simp
    rw [pop_append_singleton]
    rw [peek_of_ne_nil _ hne]
    simp [List.getElem?_eq_getElem hjr]

theorem lifo_order_witness :
    (((Stack.mk ["A"] 3 : Stack String).items.length : Int) + ["B", "C"].length
        ≤ (Stack.mk ["A"] 3 : Stack String).capacity) ∧
    ((runTrace (Stack.mk ["A"] 3 : Stack String)
        ((["B", "C"].map Op.push) ++ List.replicate ["B", "C"].length Op.pop)).drop
          ["B", "C"].length).map (fun r => r.2.value) = ["B", "C"].reverse.map some :=
  ⟨by decide, (lifo_order (Stack.mk ["A"] 3) ["B", "C"] (by decide)).2.2.1⟩

/-! ## The invariant and the size count -/

theorem wellFormed_apply {α : Type} [ToString α] (s : Stack α) (op : Op α)
    (h : s.WellFormed) : (Op.apply s op).1.WellFormed := by
  obtain ⟨h1, h2⟩ := h
  cases op with
  | push v =>
    show (s.push v).1.WellFormed
    by_cases hlt : (s.items.length : Int) < s.capacity
    · rw [push_of_lt s v hlt]
      refine ⟨?_, h2⟩
      simp only [List.length_append, List.length_cons, List.length_nil, Nat.cast_add,
        Nat.cast_one]
      omega
    · rw [push_of_ge s v (not_lt.mp hlt)]
      exact ⟨h1, h2⟩
  | pop =>
    show (s.pop).1.WellFormed
    by_cases hnil : s.items = []
    · rw [pop_of_nil s hnil]
      exact ⟨h1, h2⟩
    · rw [pop_of_ne_nil s hnil]
      refine ⟨?_, h2⟩
      simp only [List.length_dropLast]
      omega
  | peek =>
    show (s.peek).1.WellFormed
    by_cases hnil : s.items = []
    · rw [peek_of_nil s hnil]
      exact ⟨h1, h2⟩
    · rw [peek_of_ne_nil s hnil]
      exact ⟨h1, h2⟩
  | clear =>
    show (s.clear).1.WellFormed
    refine ⟨?_, h2⟩
    simp only [Stack.clear, List.length_nil, Nat.cast_zero]
    omega
  | resize n =>
    show (s.resize n).1.WellFormed
    by_cases hn : n < 1
    · rw [resize_of_lt_one s n hn]
      exact ⟨h1, h2⟩
    · have hn1 : 1 ≤ n := not_lt.mp hn
      by_cases hsz : n < (s.items.length : Int)
      · rw [resize_of_lt_length s n hn1 hsz]
        refine ⟨?_, hn1⟩
        simp only [List.length_take]
        omega
      · rw [resize_of_length_le s n hn1 (not_lt.mp hsz)]
        exact ⟨not_lt.mp hsz, hn1⟩

theorem wellFormed_runTrace {α : Type} [ToString α] (ops : List (Op α)) (s : Stack α)
    (h : s.WellFormed) : ∀ t ∈ runTrace s ops, t.1.WellFormed := by
  induction ops generalizing s with
  | nil => intro t ht; simp [runTrace] at ht
  | cons op ops ih =>
    intro t ht
    rcases List.mem_cons.mp ht with h0 | h0
    · rw [h0]
      exact wellFormed_apply s op h
    · exact ih _ (wellFormed_apply s op h) t h0

theorem wellFormed_runOps {α : Type} [ToString α] (ops : List (Op α)) (s : Stack α)
    (h : s.WellFormed) : (runOps s ops).WellFormed := by
  induction ops generalizing s with
  | nil => exact h
  | cons op ops ih => exact ih _ (wellFormed_apply s op h)

/-! ### Agreement of the two engines on integers -/

theorem jsLe_ofInt (a b : Int) :
    JSNumber.le (JSNumber.ofInt a) (JSNumber.ofInt b) = decide (a ≤ b) := by
  simp [JSNumber.le, JSNumber.ofInt]

theorem jsLt_ofInt (a b : Int) :
    JSNumber.lt (JSNumber.ofInt a) (JSNumber.ofInt b) = decide (a < b) := by
  simp [JSNumber.lt, JSNumber.ofInt]

theorem jsToString_ofInt (n : Int) :
    (JSNumber.ofInt n).toString = ToString.toString n := by
  simp [JSNumber.toString, JSNumber.ofInt]

theorem spliceStart_ofInt (len : Nat) (n : Int) (h1 : 1 ≤ n)
    (hlt : n < (len : Int)) : JSNumber.spliceStart len (JSNumber.ofInt n) = n.toNat := by
  have h0 : 0 ≤ n := by omega
  have hn : ¬ n < 0 := by omega
  simp only [JSNumber.spliceStart, JSNumber.ofInt, pow_zero, Int.ediv_one, if_pos h0, if_neg hn]
  omega

/-- On a stack with an integer capacity and a call with integer argument, the engine
on arbitrary numbers does what the engine on integers does: same items, same capacity,
same result record. -/
theorem apply_toJs {α : Type} [ToString α] (s : Stack α) (op : Op α) :
    JsOp.apply s.toJs op.toJs = ((Op.apply s op).1.toJs, (Op.apply s op).2) := by
  cases op with
  | push v =>
    show JsStack.push s.toJs v = ((s.push v).1.toJs, (s.push v).2)
    unfold JsStack.push
    simp only [Stack.toJs, jsLe_ofInt]
    by_cases hlt : (s.items.length : Int) < s.capacity
    · rw [push_of_lt s v hlt, if_neg (by simpa using hlt)]
    · rw [push_of_ge s v (not_lt.mp hlt), if_pos (by simpa using hlt)]
  | pop =>
    show JsStack.pop s.toJs = ((s.pop).1.toJs, (s.pop).2)
    unfold JsStack.pop Stack.pop
    simp only [Stack.toJs]
    by_cases h : s.items.length = 0
    · rw [dif_pos h, dif_pos h]
    · rw [dif_neg h, dif_neg h]
  | peek =>
    show JsStack.peek s.toJs = ((s.peek).1.toJs, (s.peek).2)
    unfold JsStack.peek Stack.peek
    simp only [Stack.toJs]
    by_cases h : s.items.length = 0
    · rw [dif_pos h, dif_pos h]
    · rw [dif_neg h, dif_neg h]
  | clear => rfl
  | resize n =>
    show JsStack.resize s.toJs (JSNumber.ofInt n) = ((s.resize n).1.toJs, (s.resize n).2)
    unfold JsStack.resize
    simp only [Stack.toJs, jsLt_ofInt, jsToString_ofInt]
    by_cases hn : n < 1
    · rw [resize_of_lt_one s n hn, if_pos (by simpa using hn)]
    · have h1 : 1 ≤ n := not_lt.mp hn
      rw [if_neg (by simpa using hn)]
      by_cases hlt : n < (s.items.length : Int)
      · rw [resize_of_lt_length s n h1 hlt, if_pos (by simpa using hlt),
          spliceStart_ofInt _ n h1 hlt]
      · rw [resize_of_length_le s n h1 (not_lt.mp hlt), if_neg (by simpa using hlt)]

theorem jsRunTrace_toJs {α : Type} [ToString α] (ops : List (Op α)) (s : Stack α) :
    jsRunTrace s.toJs (ops.map Op.toJs)
      = (runTrace s ops).map (fun t => (t.1.toJs, t.2)) := by
  induction ops generalizing s with
  | nil => rfl
  | cons op ops ih =>
    show JsOp.apply s.toJs op.toJs :: jsRunTrace (JsOp.apply s.toJs op.toJs).1 _ = _
    rw [apply_toJs]
    show _ :: jsRunTrace (Op.apply s op).1.toJs _ = _
    rw [ih]
    rfl

theorem invariant_toJs {α : Type} [ToString α] (ops : List (Op α)) (s : Stack α)
    (h : s.WellFormed) :
    ∀ t ∈ jsRunTrace s.toJs (ops.map Op.toJs),
      JSNumber.le (JSNumber.ofInt 0) (JSNumber.ofInt t.1.items.length) = true ∧
      JSNumber.le (JSNumber.ofInt t.1.items.length) t.1.capacity = true ∧
      JSNumber.le (JSNumber.ofInt 1) t.1.capacity = true := by
  intro t ht
  rw [jsRunTrace_toJs] at ht
  obtain ⟨u, hu, rfl⟩ := List.mem_map.mp ht
  obtain ⟨h1, h2⟩ := wellFormed_runTrace ops s h u hu
  simp only [Stack.toJs, jsLe_ofInt, decide_eq_true_eq]
  exact ⟨Int.natCast_nonneg _, h1, h2⟩

/-- Claim C1, as stated, fails when `resize` is given a number that is not an integer.
From `new Stack(2)`, the calls `resize(2.5)`, `push("A")`, `push("B")`, `push("C")` all
return `success = true` and leave three items with capacity 2.5, so
`items.length ≤ capacity` is false after the last call; and `resize(NaN)` returns
`success = true` and leaves the capacity `NaN`, for which `capacity ≥ 1` is false. -/
theorem invariant_fractional_resize_counterexample :
    (jsRunTrace (JsStack.new (some (JSNumber.ofInt 2)) : JsStack String)
        [JsOp.resize (JSNumber.finite 5 1), JsOp.push "A", JsOp.push "B",
          JsOp.push "C"]).map (fun t => (t.2.success, t.1.items, t.1.capacity))
      = [(true, [], JSNumber.finite 5 1), (true, ["A"], JSNumber.finite 5 1),
         (true, ["A", "B"], JSNumber.finite 5 1),
         (true, ["A", "B", "C"], JSNumber.finite 5 1)] ∧
    (¬ ∀ t ∈ jsRunTrace (JsStack.new (some (JSNumber.ofInt 2)) : JsStack String)
        [JsOp.resize (JSNumber.finite 5 1), JsOp.push "A", JsOp.push "B", JsOp.push "C"],
      JSNumber.le (JSNumber.ofInt 0) (JSNumber.ofInt t.1.items.length) = true ∧
      JSNumber.le (JSNumber.ofInt t.1.items.length) t.1.capacity = true ∧
      JSNumber.le (JSNumber.ofInt 1) t.1.capacity = true) ∧
    (jsRunTrace (JsStack.new (some (JSNumber.ofInt 2)) : JsStack String)
        [JsOp.resize JSNumber.nan]).map (fun t => (t.2.success, t.1.items, t.1.capacity))
      = [(true, [], JSNumber.nan)] ∧
    (¬ ∀ t ∈ jsRunTrace (JsStack.new (some (JSNumber.ofInt 2)) : JsStack String)
        [JsOp.resize JSNumber.nan],
      JSNumber.le (JSNumber.ofInt 0) (JSNumber.ofInt t.1.items.length) = true ∧
      JSNumber.le (JSNumber.ofInt t.1.items.length) t.1.capacity = true ∧
      JSNumber.le (JSNumber.ofInt 1) t.1.capacity = true) := by
  decide

/-- Claim C1, amended: for a stack constructed with an integer capacity `c ≥ 1`, or
with the default capacity 5, and every finite sequence of `push`, `pop`, `peek`,
`clear` and `resize` calls in which the pushed values are arbitrary and every argument
of `resize` is an integer (of any sign), after every call
`0 ≤ items.length ≤ capacity` and `capacity ≥ 1`. The calls run on the engine on
arbitrary numbers. -/
theorem invariant_integer_resize {α : Type} [ToString α] (c : Int) (hc : 1 ≤ c)
    (ops : List (Op α)) :
    (∀ t ∈ jsRunTrace (JsStack.new (some (JSNumber.ofInt c))) (ops.map Op.toJs),
      JSNumber.le (JSNumber.ofInt 0) (JSNumber.ofInt t.1.items.length) = true ∧
      JSNumber.le (JSNumber.ofInt t.1.items.length) t.1.capacity = true ∧
      JSNumber.le (JSNumber.ofInt 1) t.1.capacity = true) ∧
    (∀ t ∈ jsRunTrace (JsStack.new none) (ops.map Op.toJs),
      JSNumber.le (JSNumber.ofInt 0) (JSNumber.ofInt t.1.items.length) = true ∧
      JSNumber.le (JSNumber.ofInt t.1.items.length) t.1.capacity = true ∧
      JSNumber.le (JSNumber.ofInt 1) t.1.capacity = true) := by
  have hc0 : (Stack.new (some c) : Stack α).WellFormed := by
    refine ⟨?_, hc⟩
    simp only [Stack.new, List.length_nil, Nat.cast_zero, Option.getD_some]
    omega
  have hd0 : (Stack.new none : Stack α).WellFormed := by
    constructor <;> simp [Stack.new]
  exact ⟨invariant_toJs ops _ hc0, invariant_toJs ops _ hd0⟩

theorem invariant_integer_resize_witness :
    (1 : Int) ≤ 2 ∧
    ∀ t ∈ jsRunTrace (JsStack.new (some (JSNumber.ofInt 2)) : JsStack String)
        ([Op.push "A", Op.push "B", Op.push "C", Op.resize 0, Op.resize (-3), Op.resize 1,
          Op.peek, Op.pop, Op.pop, Op.clear].map Op.toJs),
      JSNumber.le (JSNumber.ofInt 0) (JSNumber.ofInt t.1.items.length) = true ∧
      JSNumber.le (JSNumber.ofInt t.1.items.length) t.1.capacity = true ∧
      JSNumber.le (JSNumber.ofInt 1) t.1.capacity = true :=
  ⟨by decide, (invariant_integer_resize 2 (by decide) _).1⟩

theorem size_runOps {α : Type} [ToString α] (ops : List (Op α)) (s : Stack α)
    (hops : ∀ op ∈ ops, op.isPush = true ∨ op.isPop = true) :
    ((runOps s ops).size : Int)
      = (s.size : Int) + successfulPushes s ops - successfulPops s ops := by
  induction ops generalizing s with
  | nil => simp [runOps, successfulPushes, successfulPops]
  | cons op ops ih =>
    have ih1 := ih (Op.apply s op).1 (fun o ho => hops o (List.mem_cons_of_mem _ ho))
    show ((runOps (Op.apply s op).1 ops).size : Int) = _
    rw [ih1]
    cases op with
    | push v =>
      by_cases hlt : (s.items.length : Int) < s.capacity
      · simp [successfulPushes, successfulPops, Op.apply, Op.isPush, Op.isPop,
          push_of_lt s v hlt, Stack.size]
        ring
      · simp [successfulPushes, successfulPops, Op.apply, Op.isPush, Op.isPop,
          push_of_ge s v (not_lt.mp hlt), Stack.size]
    | pop =>
      by_cases hnil : s.items = []
      · simp [successfulPushes, successfulPops, Op.apply, Op.isPush, Op.isPop,
          pop_of_nil s hnil, Stack.size]
      · have hpos : 0 < s.items.length := List.length_pos.mpr hnil
        simp [successfulPushes, successfulPops, Op.apply, Op.isPush, Op.isPop,
          pop_of_ne_nil s hnil, Stack.size]
        omega
    | peek => simpa [Op.isPush, Op.isPop] using hops Op.peek (List.mem_cons_self _ _)
    | clear => simpa [Op.isPush, Op.isPop] using hops Op.clear (List.mem_cons_self _ _)
    | resize n =>
      simpa [Op.isPush, Op.isPop] using hops (Op.resize n) (List.mem_cons_self _ _)

theorem capacity_runOps {α : Type} [ToString α] (ops : List (Op α)) (s : Stack α)
    (hops : ∀ op ∈ ops, op.isPush = true ∨ op.isPop = true) :
    (runOps s ops).capacity = s.capacity := by
  induction ops generalizing s with
  | nil => rfl
  | cons op ops ih =>
    show (runOps (Op.apply s op).1 ops).capacity = _
    rw [ih _ (fun o ho => hops o (List.mem_cons_of_mem _ ho))]
    cases op with
    | push v =>
      by_cases hlt : (s.items.length : Int) < s.capacity
      · simp [Op.apply, push_of_lt s v hlt]
      · simp [Op.apply, push_of_ge s v (not_lt.mp hlt)]
    | pop =>
      by_cases hnil : s.items = []
      · simp [Op.apply, pop_of_nil s hnil]
      · simp [Op.apply, pop_of_ne_nil s hnil]
    | peek => simpa [Op.isPush, Op.isPop] using hops Op.peek (List.mem_cons_self _ _)
    | clear => simpa [Op.isPush, Op.isPop] using hops Op.clear (List.mem_cons_self _ _)
    | resize n =>
      simpa [Op.isPush, Op.isPop] using hops (Op.resize n) (List.mem_cons_self _ _)

/-- Claim C6: on a stack that starts empty with capacity `c ≥ 1`, for every finite
sequence of `push` and `pop` calls, after each call (after the first `n` calls, for
every `n`) `size()` equals the number of pushes so far that returned `success = true`
minus the number of pops so far that returned `success = true`, and `size()` does not
exceed `c`; in particular after `k ≤ c` pushes onto the empty stack `size() = k` and
`getTopIndex() = k - 1`. -/
theorem size_eq_pushes_minus_pops {α : Type} [ToString α] (c : Int) (hc : 1 ≤ c)
    (ops : List (Op α)) (hops : ∀ op ∈ ops, op.isPush = true ∨ op.isPop = true) :
    (∀ n : Nat,
      ((runOps (Stack.new (some c)) (ops.take n)).size : Int)
        = (successfulPushes (Stack.new (some c)) (ops.take n) : Int)
          - successfulPops (Stack.new (some c)) (ops.take n) ∧
      ((runOps (Stack.new (some c)) (ops.take n)).size : Int) ≤ c) ∧
    (∀ vs : List α, (vs.length : Int) ≤ c →
      (runOps (Stack.new (some c)) (vs.map Op.push)).size = vs.length ∧
      (runOps (Stack.new (some c)) (vs.map Op.push)).getTopIndex
        = (vs.length : Int) - 1) := by
  have hc0 : (Stack.new (some c) : Stack α).WellFormed := by
    refine ⟨?_, hc⟩
    simp only [Stack.new, List.length_nil, Nat.cast_zero, Option.getD_some]
    omega
  constructor
  · intro n
    constructor
    · rw [size_runOps (ops.take n) _ (fun o ho => hops o (List.mem_of_mem_take ho))]
      simp [Stack.new, Stack.size]
    · have hwf := wellFormed_runOps (ops.take n) _ hc0
      have hcap := capacity_runOps (ops.take n) (Stack.new (some c) : Stack α)
        (fun o ho => hops o (List.mem_of_mem_take ho))
      have hle := hwf.1
      rw [hcap] at hle
      simpa [Stack.new, Stack.size] using hle
  · intro vs hvs
    have hp := (runOps_pushes vs (Stack.new (some c) : Stack α)
      (by simpa [Stack.new] using hvs)).1
    rw [hp]
    simp [Stack.new, Stack.size, Stack.getTopIndex]

theorem size_eq_pushes_minus_pops_witness :
    (1 : Int) ≤ 2 ∧
    (∀ op ∈ [Op.push "A", Op.pop, Op.pop, Op.push "B", Op.push "C", Op.push "D"],
      op.isPush = true ∨ op.isPop = true) ∧
    ((runOps (Stack.new (some 2) : Stack String)
        ([Op.push "A", Op.pop, Op.pop, Op.push "B", Op.push "C", Op.push "D"].take 6)).size
          : Int)
      = (successfulPushes (Stack.new (some 2) : Stack String)
          ([Op.push "A", Op.pop, Op.pop, Op.push "B", Op.push "C", Op.push "D"].take 6)
            : Int)
        - successfulPops (Stack.new (some 2) : Stack String)
          ([Op.push "A", Op.pop, Op.pop, Op.push "B", Op.push "C", Op.push "D"].take 6) :=
  ⟨by decide, by decide,
    ((size_eq_pushes_minus_pops 2 (by decide)
      [Op.push "A", Op.pop, Op.pop, Op.push "B", Op.push "C", Op.push "D"]
      (by decide)).1 6).1⟩

/-! ## The controller -/

/-- Claim C10: with the animation flag clear, for every parsed capacity input
(`none` for not-a-number, or any integer), `resizeStack` calls the engine's
`resize(n)` if and only if the input is an integer `n` with `1 ≤ n ≤ 20`, and then
the new stack is what `resize(n)` produces; when the input is not a number or lies
outside `[1, 20]` it makes no engine call and leaves the stack (items and capacity)
unchanged; and every engine call it makes returns `success = true`. -/
theorem resizeStack_calls_engine_iff (app : App) (parsed : Option Int)
    (hflag : app.isAnimating = false) :
    (∀ m r, Call.engine (Op.resize m) r ∈ (resizeStack app parsed).2 ↔
      (parsed = some m ∧ 1 ≤ m ∧ m ≤ 20 ∧ r = (app.stack.resize m).2)) ∧
    (∀ m, parsed = some m → 1 ≤ m → m ≤ 20 →
      (resizeStack app parsed).1.stack = (app.stack.resize m).1) ∧
    ((∀ m, parsed = some m → m < 1 ∨ 20 < m) →
      (∀ op r, Call.engine op r ∉ (resizeStack app parsed).2) ∧
      (resizeStack app parsed).1.stack.items = app.stack.items ∧
      (resizeStack app parsed).1.stack.capacity = app.stack.capacity) ∧
    (∀ op r, Call.engine op r ∈ (resizeStack app parsed).2 → r.success = true) := by
  cases parsed with
  | none =>
    simp [resizeStack, hflag]
  | some n =>
    by_cases hbad : n = 0 ∨ n < 1 ∨ n > 20
    · have hout : resizeStack app (some n) = (app,
          [Call.showToast "Invalid Input" "Capacity must be between 1 and 20" "warning"]) := by
        simp only [resizeStack, hflag, Bool.false_eq_true, if_false, hbad, if_true]
      rw [hout]
      have hrange : ¬ (1 ≤ n ∧ n ≤ 20) := by omega
      refine ⟨?_, ?_, ?_, ?_⟩
      · intro m r
        constructor
        · intro hmem
          simp at hmem
        · rintro ⟨hm, h1, h2, -⟩
          cases hm
          exact absurd ⟨h1, h2⟩ hrange
      · intro m hm h1 h2
        cases hm
        exact absurd ⟨h1, h2⟩ hrange
      · intro _
        simp
      · intro op r hmem
        simp at hmem
    · have hout : resizeStack app (some n) = ({ app with stack := (app.stack.resize n).1 },
          [Call.engine (Op.resize n) (app.stack.resize n).2,
           Call.updateLastOperation (app.stack.resize n).2.message,
           Call.setCapacityInput "",
           Call.showToast "Success" (app.stack.resize n).2.message "success",
           Call.render]) := by
        simp only [resizeStack, hflag, Bool.false_eq_true, if_false, hbad]
      rw [hout]
      have h1 : 1 ≤ n := by omega
      have h20 : n ≤ 20 := by omega
      refine ⟨?_, ?_, ?_, ?_⟩
      · intro m r
        constructor
        · intro hmem
          simp at hmem
          obtain ⟨hm, hr⟩ := hmem
          subst hm
          exact ⟨rfl, h1, h20, hr⟩
        · rintro ⟨hm, -, -, hr⟩
          cases hm
          rw [hr]
          simp
      · intro m hm _ _
        cases hm
        rfl
      · intro hall
        rcases hall n rfl with h | h <;> omega
      · intro op r hmem
        simp at hmem
        obtain ⟨-, hr⟩ := hmem
        rw [hr]
        exact resize_success app.stack n h1

theorem resizeStack_calls_engine_iff_witness :
    (App.mk (Stack.mk ["X", "Y", "Z"] 3) false).isAnimating = false ∧
    (Call.engine (Op.resize 2) ((Stack.mk ["X", "Y", "Z"] 3 : Stack String).resize 2).2
        ∈ (resizeStack (App.mk (Stack.mk ["X", "Y", "Z"] 3) false) (some 2)).2 ↔
      ((some 2 : Option Int) = some 2 ∧ (1 : Int) ≤ 2 ∧ (2 : Int) ≤ 20 ∧
        ((Stack.mk ["X", "Y", "Z"] 3 : Stack String).resize 2).2
          = ((App.mk (Stack.mk ["X", "Y", "Z"] 3) false).stack.resize 2).2)) :=
  ⟨rfl, (resizeStack_calls_engine_iff (App.mk (Stack.mk ["X", "Y", "Z"] 3) false) (some 2)
    rfl).1 2 _⟩

theorem randomPushCount_bounds (r : UnitDraw) (c : Int) (hc : 1 ≤ c) :
    1 ≤ randomPushCount r c ∧ randomPushCount r c ≤ c := by
  have hpos : 0 < c := by omega
  unfold randomPushCount
  rw [dif_pos hpos]
  have h := (floorRandomTimes r c.toNat (by omega)).isLt
  constructor <;> omega

theorem randomValue_mem (r : UnitDraw) : randomValue r ∈ values := by
  unfold randomValue
  exact List.get_mem _ _ _

theorem randomizeLoop_ok (random : Nat → UnitDraw) (remaining : Nat) (i : Nat)
    (st : Stack String) (h : (st.items.length : Int) + remaining ≤ st.capacity) :
    (randomizeLoop random i remaining st).1.capacity = st.capacity ∧
    (randomizeLoop random i remaining st).1.items.length = st.items.length + remaining ∧
    (∀ v ∈ (randomizeLoop random i remaining st).1.items, v ∈ st.items ∨ v ∈ values) ∧
    (∀ c ∈ (randomizeLoop random i remaining st).2,
      ∃ v r, c = Call.engine (Op.push v) r ∧ r.success = true) ∧
    (randomizeLoop random i remaining st).2.length = remaining := by
  induction remaining generalizing i st with
  | zero =>
    refine ⟨rfl, rfl, fun v hv => Or.inl hv, fun c hc => ?_, rfl⟩
    simp [randomizeLoop] at hc
  | succ n ih =>
    have hlt : (st.items.length : Int) < st.capacity := by
      push_cast at h
      omega
    have hpush := push_of_lt st (randomValue (random (i + 1))) hlt
    have h2 : (((st.push (randomValue (random (i + 1)))).1.items.length : Int)) + n
        ≤ (st.push (randomValue (random (i + 1)))).1.capacity := by
      rw [hpush]
      push_cast at h ⊢
      simp only [List.length_append, List.length_cons, List.length_nil]
      push_cast
      omega
    obtain ⟨ih1, ih2, ih3, ih4, ih5⟩ := ih (i + 1) _ h2
    simp only [randomizeLoop]
    refine ⟨?_, ?_, ?_, ?_, ?_⟩
    · rw [ih1, hpush]
    · rw [ih2, hpush]
      simp only [List.length_append, List.length_cons, List.length_nil]
      omega
    · intro v hv
      rcases ih3 v hv with h0 | h0
      · rw [hpush] at h0
        rcases List.mem_append.mp h0 with h1 | h1
        · exact Or.inl h1
        · rw [List.mem_singleton.mp h1]
          exact Or.inr (randomValue_mem _)
      · exact Or.inr h0
    · intro c hc
      rcases List.mem_cons.mp hc with h0 | h0
      · exact ⟨_, _, h0, by rw [hpush]⟩
      · exact ih4 c h0
    · simp [ih5]

theorem randomizeStack_unfold (app : App) (random : Nat → UnitDraw)
    (hflag : app.isAnimating = false) :
    randomizeStack app random =
      ({ app with stack := (randomizeLoop random 0
            (randomPushCount (random 0) app.stack.capacity).toNat
            (Stack.mk [] app.stack.capacity)).1 },
       Call.engine Op.clear (app.stack.clear).2 ::
        (randomizeLoop random 0 (randomPushCount (random 0) app.stack.capacity).toNat
            (Stack.mk [] app.stack.capacity)).2 ++
        [Call.updateLastOperation ("Randomized stack with "
            ++ toString (randomPushCount (random 0) app.stack.capacity) ++ " items"),
         Call.showToast "Randomized" ("Added "
            ++ toString (randomPushCount (random 0) app.stack.capacity)
            ++ " random items to stack") "default",
         Call.render]) := by
  simp only [randomizeStack, hflag, Bool.false_eq_true, if_false, Stack.clear]

/-- Claim C9: with the animation flag clear and a capacity `c ≥ 1`, whatever the stack
held before and whatever the random draws are, `randomizeStack` leaves the capacity
unchanged and leaves the stack holding exactly `pushCount` items, where `pushCount`
is the count it reports (in the last-operation text and in the notification) and
`1 ≤ pushCount ≤ c`; it issues `pushCount` pushes, every one of them succeeds, and
every item is one of the 12 fixed symbols. -/
theorem randomizeStack_fills (app : App) (random : Nat → UnitDraw)
    (hflag : app.isAnimating = false) (hc : 1 ≤ app.stack.capacity) :
    1 ≤ randomPushCount (random 0) app.stack.capacity ∧
    randomPushCount (random 0) app.stack.capacity ≤ app.stack.capacity ∧
    (randomizeStack app random).1.stack.capacity = app.stack.capacity ∧
    ((randomizeStack app random).1.stack.items.length : Int)
      = randomPushCount (random 0) app.stack.capacity ∧
    Call.updateLastOperation ("Randomized stack with "
        ++ toString (randomPushCount (random 0) app.stack.capacity) ++ " items")
      ∈ (randomizeStack app random).2 ∧
    Call.showToast "Randomized" ("Added "
        ++ toString (randomPushCount (random 0) app.stack.capacity)
        ++ " random items to stack") "default"
      ∈ (randomizeStack app random).2 ∧
    ((((randomizeStack app random).2.filter Call.isEnginePush).length : Nat) : Int)
      = randomPushCount (random 0) app.stack.capacity ∧
    (∀ v r, Call.engine (Op.push v) r ∈ (randomizeStack app random).2 → r.success = true) ∧
    (∀ v ∈ (randomizeStack app random).1.stack.items, v ∈ values) ∧
    values.length = 12 := by
  obtain ⟨hlo, hhi⟩ := randomPushCount_bounds (random 0) app.stack.capacity hc
  have hnat : ((randomPushCount (random 0) app.stack.capacity).toNat : Int)
      = randomPushCount (random 0) app.stack.capacity :=
    Int.toNat_of_nonneg (by omega)
  have hroom : (((Stack.mk [] app.stack.capacity : Stack String).items.length : Int))
      + ((randomPushCount (random 0) app.stack.capacity).toNat : Nat)
        ≤ (Stack.mk [] app.stack.capacity : Stack String).capacity := by
    rw [hnat]
    simp only [List.length_nil, Nat.cast_zero, zero_add]
    exact hhi
  obtain ⟨l1, l2, l3, l4, l5⟩ := randomizeLoop_ok random
    (randomPushCount (random 0) app.stack.capacity).toNat 0
    (Stack.mk [] app.stack.capacity) hroom
  rw [randomizeStack_unfold app random hflag]
  refine ⟨hlo, hhi, l1, ?_, ?_, ?_, ?_, ?_, ?_, rfl⟩
  · show ((randomizeLoop random 0 _ _).1.items.length : Int) = _
    rw [l2]
    simp only [List.length_nil, zero_add]
    exact hnat
  · simp
  · simp
  · have hfilter : (randomizeLoop random 0
        (randomPushCount (random 0) app.stack.capacity).toNat
        (Stack.mk [] app.stack.capacity)).2.filter Call.isEnginePush
        = (randomizeLoop random 0 (randomPushCount (random 0) app.stack.capacity).toNat
            (Stack.mk [] app.stack.capacity)).2 := by
      rw [List.filter_eq_self]
      intro c hcm
      obtain ⟨v, r, hcv, -⟩ := l4 c hcm
      rw [hcv]
      rfl
    simp only [List.filter_cons, Call.isEnginePush, List.filter_append, hfilter,
      Bool.false_eq_true, if_false, List.filter_nil, List.append_nil, l5]
    exact hnat
  · intro v r hmem
    rcases List.mem_cons.mp hmem with h0 | h0
    · cases h0
    · rcases List.mem_append.mp h0 with h1 | h1
      · obtain ⟨v1, r1, hcv, hr⟩ := l4 _ h1
        cases hcv
        exact hr
      · simp at h1
  · intro v hv
    rcases l3 v hv with h0 | h0
    · simp at h0
    · exact h0

theorem randomizeStack_fills_witness :
    (App.mk (Stack.mk ["X"] 3) false).isAnimating = false ∧
    (1 : Int) ≤ (App.mk (Stack.mk ["X"] 3) false).stack.capacity ∧
    (((randomizeStack (App.mk (Stack.mk ["X"] 3) false)
        (fun _ => UnitDraw.mk 6004799503160661 54 (by decide) (by decide)
          (by decide))).1.stack.items.length : Int)
      = randomPushCount ((fun _ => UnitDraw.mk 6004799503160661 54 (by decide) (by decide)
          (by decide) : Nat → UnitDraw) 0)
          (App.mk (Stack.mk ["X"] 3) false).stack.capacity) :=
  ⟨rfl, by decide, (randomizeStack_fills (App.mk (Stack.mk ["X"] 3) false)
    (fun _ => UnitDraw.mk 6004799503160661 54 (by decide) (by decide) (by decide))
    rfl (by decide)).2.2.2.1⟩

/-! ## The scenarios of the specification, evaluated -/

/-- Scenario: capacity 5, `push("A")`, `push("B")`, `push("C")` gives size 3, a
successful `peek()` of "C" and top index 2. -/
theorem scenario_three_pushes :
    (runOps (Stack.new (some 5) : Stack String)
        [Op.push "A", Op.push "B", Op.push "C"]).size = 3 ∧
    ((runOps (Stack.new (some 5) : Stack String)
        [Op.push "A", Op.push "B", Op.push "C"]).peek).2.success = true ∧
    ((runOps (Stack.new (some 5) : Stack String)
        [Op.push "A", Op.push "B", Op.push "C"]).peek).2.value = some "C" ∧
    (runOps (Stack.new (some 5) : Stack String)
        [Op.push "A", Op.push "B", Op.push "C"]).getTopIndex = 2 := by
  decide

/-- Scenario: capacity 2, three pushes: the third fails with the overflow message and
the size stays 2. -/
theorem scenario_overflow :
    (runTrace (Stack.new (some 2) : Stack String)
        [Op.push "A", Op.push "B", Op.push "C"]).map (fun r => (r.2.success, r.1.size))
      = [(true, 1), (true, 2), (false, 2)] ∧
    ((runOps (Stack.new (some 2) : Stack String) [Op.push "A", Op.push "B"]).push "C").2.message
      = "Stack Overflow! Cannot push to full stack." := by
  decide

/-- Scenario: capacity 5 with items A, B, C: `resize(2)` leaves A, B and reports one
item removed. -/
theorem scenario_resize_truncates :
    ((Stack.mk ["A", "B", "C"] 5 : Stack String).resize 2).1.items = ["A", "B"] ∧
    ((Stack.mk ["A", "B", "C"] 5 : Stack String).resize 2).2.message
      = "Resized from 5 to 2. Removed 1 items." := by
  decide

/-- Scenario: `pop()` on the empty stack fails with the underflow message and the size
stays 0. -/
theorem scenario_underflow :
    ((Stack.new none : Stack String).pop).2.success = false ∧
    ((Stack.new none : Stack String).pop).2.message
      = "Stack Underflow! Cannot pop from empty stack." ∧
    ((Stack.new none : Stack String).pop).1.size = 0 := by
  decide

/-- The rounding of the double product: the draw 0.3333333333333333 is
`6004799503160661 / 2 ^ 54`; its exact product with 3 is `1 - 2 ^ (-54)`, a tie that
rounds to 1, and its exact product with 12 is `4 - 2 ^ (-52)`, a tie that rounds to 4.
So at capacity 3 the count is 2 and the symbol drawn is `values[4]`, "Y". -/
theorem scenario_rounded_product :
    roundToDouble (6004799503160661 * 3) = 2 ^ 54 ∧
    roundToDouble (6004799503160661 * 12) = 2 ^ 56 ∧
    randomPushCount (UnitDraw.mk 6004799503160661 54 (by decide) (by decide) (by decide)) 3
      = 2 ∧
    randomValue (UnitDraw.mk 6004799503160661 54 (by decide) (by decide) (by decide))
      = "Y" := by
  decide

/-- The handler `randomizeStack` on a stack of capacity 3 holding "X": when every draw
is 0.3333333333333333 it leaves two items "Y"; when every draw is 0.5 it leaves two
items `values[6]`. -/
theorem scenario_randomize :
    (randomizeStack (App.mk (Stack.mk ["X"] 3) false)
        (fun _ => UnitDraw.mk 6004799503160661 54 (by decide) (by decide)
          (by decide))).1.stack = Stack.mk ["Y", "Y"] 3 ∧
    (randomizeStack (App.mk (Stack.mk ["X"] 3) false)
        (fun _ => UnitDraw.mk (2 ^ 52) 53 (by decide) (by decide)
          (by decide))).1.stack = Stack.mk ["1", "1"] 3 := by
  decide

/-- The handler `resizeStack` accepts 2 and rejects 21, 0 and not-a-number. -/
theorem scenario_resizeStack :
    (resizeStack (App.mk (Stack.mk ["X", "Y", "Z"] 3) false) (some 2)).1.stack
      = Stack.mk ["X", "Y"] 2 ∧
    (resizeStack (App.mk (Stack.mk ["X", "Y", "Z"] 3) false) (some 21)).1.stack
      = Stack.mk ["X", "Y", "Z"] 3 ∧
    (resizeStack (App.mk (Stack.mk ["X", "Y", "Z"] 3) false) (some 0)).1.stack
      = Stack.mk ["X", "Y", "Z"] 3 ∧
    (resizeStack (App.mk (Stack.mk ["X", "Y", "Z"] 3) false) none).1.stack
      = Stack.mk ["X", "Y", "Z"] 3 := by
  decide

end StackVisualizer
